import Mathlib

/-!
Verification development for the MP4/M4A metadata decoder in `Mp4Parser.py`.

The development shallowly embeds the two components under study:

* the Box Tree Walker `Mp4Parser._parse` (lines 103-141 of the source), a
  generator that walks a half-open byte range `[begin, end)` of a seekable
  byte source, recurses into container boxes and yields `(tag, payload)`
  pairs for leaf boxes; its bare `except` handler prints a diagnostic and
  ends the generator; and

* the Tag Value Normalizer `Mp4Parser._save` (lines 147-350), which resolves
  a human-readable key for a tag, applies a per-tag decoding rule to the raw
  payload, and folds the decoded contributions into the accumulating record.

The byte source is a `List Nat` of byte values.  Python integers are `Int`
where the source can produce negative values (the walker's `size` variable)
and `Nat` where they cannot.  The Python `while` loops that need not
terminate (the walker's scan loop and the freeform sub-record loop) take an
explicit fuel argument; running out of fuel is reported through a dedicated
result so that divergence of the source is observable in the model.
Exceptions of the Python runtime are modelled as explicit error results.

Modelling notes, to be read next to the source:
* `fd.read(n)` never raises: at position `p` in a file of length `L` it
  returns the bytes `[p, min (p+n) L)`, and for negative `n` it returns the
  rest of the file.  `unpack` raises `struct.error` when handed a short
  read; `fd.seek(off)` raises for negative `off`.
* The bare `except` of `_parse` prints `File size`, `File position`,
  `Range`, `Tag`, `Offset` and `Size`.  `tag` and `size` there hold the
  values of the *previous* iteration when the current header read failed;
  on the very first iteration of a call they are unbound and the print
  itself raises `UnboundLocalError`, which escapes the generator
  (modelled as the `crash` exit).  A crash of a nested `_parse` generator
  is caught by the enclosing generator's own `except`.  The printed
  file-position line is not modelled in the diagnostic record; the other
  fields are.
* `ET.fromstring` is external library code; the embedding takes the XML
  parse as an explicit function argument producing an `XNode` tree.
* The float division of the `mvhd` branch is modelled as an exact
  numerator/denominator pair (`Val.vfrac`); no claim depends on it.
-/

abbrev Bytes := List Nat

/-- ASCII bytes of a string, for writing box tags. -/
def ascii (s : String) : Bytes := s.data.map Char.toNat

/-- Big-endian value of a byte list (Python `unpack('!I', ...)`, `int.from_bytes(..., 'big')`). -/
def beVal (bs : Bytes) : Nat := bs.foldl (fun a b => a * 256 + b) 0

/-- Little-endian value of a byte list (Python `int.from_bytes(..., 'little')`). -/
def leVal (bs : Bytes) : Nat := bs.foldr (fun b a => a * 256 + b) 0

/-- 4-byte big-endian encoding. -/
def be32 (n : Nat) : Bytes := [n / 16777216 % 256, n / 65536 % 256, n / 256 % 256, n % 256]

/-- 8-byte big-endian encoding. -/
def be64 (n : Nat) : Bytes :=
  [n / 72057594037927936 % 256, n / 281474976710656 % 256, n / 1099511627776 % 256,
   n / 4294967296 % 256, n / 16777216 % 256, n / 65536 % 256, n / 256 % 256, n % 256]

/-- Python `fd.read(n)` at (non-negative) position `pos`: for negative `n`
read to end of file, otherwise return up to `n` bytes. -/
def pyRead (file : Bytes) (pos : Nat) (n : Int) : Bytes :=
  if n < 0 then file.drop pos else (file.drop pos).take n.toNat

/-- Clamp a Python slice index (negative indices count from the end). -/
def pyClamp (len : Nat) (i : Int) : Nat :=
  (max 0 (min (if i < 0 then i + len else i) (len : Int))).toNat

/-- Python slice `bs[a:b]`. -/
def pySlice (bs : Bytes) (a b : Int) : Bytes :=
  (bs.take (pyClamp bs.length b)).drop (pyClamp bs.length a)

/-- Bytes `[a, b)` of a list (both indices already non-negative and in range). -/
def sliceN (bs : Bytes) (a b : Nat) : Bytes := (bs.take b).drop a

/-- Reinterpret a 32-bit unsigned value as Python `unpack('!i', ...)` does (signed). -/
def signed32 (n : Nat) : Int := if n < 2147483648 then (n : Int) else (n : Int) - 4294967296

/-- One printed malformed-box diagnostic of `_parse`'s `except` handler
(file size, the range being parsed, and the current `tag`, `offset` and
`size` local variables at exception time). -/
structure Diag where
  fsize : Nat
  rbegin : Int
  rend : Int
  tag : Bytes
  offset : Int
  size : Int
deriving DecidableEq, Repr

/-- How one `_parse` generator call ends. -/
inductive PExit where
  /-- The generator returned normally (either the loop finished or the bare
  `except` printed a diagnostic and the generator body ended). -/
  | ok : PExit
  /-- The bare `except` itself raised (`tag` unbound on the first iteration),
  so a raw exception escaped this generator. -/
  | crash : PExit
  /-- The model ran out of fuel (the source would still be looping). -/
  | outOfFuel : PExit
deriving DecidableEq, Repr

/-- Observable outcome of one `_parse` call: yielded `(tag, payload)` pairs
in order, printed diagnostics in order, the declared size of every box
header read (trace used for termination analysis), and the exit. -/
structure ParseOut where
  pairs : List (Bytes × Bytes)
  diags : List Diag
  sizes : List Nat
  exit : PExit
deriving DecidableEq, Repr

/-- Container tags (`Mp4Parser.CONTAINERS`). -/
def containersL : List Bytes :=
  [ascii "dinf", ascii "edts", ascii "ilst", ascii "gmhd", ascii "mdia", ascii "meta",
   ascii "minf", ascii "moov", ascii "stbl", ascii "trak", ascii "tref", ascii "udta"]

/-- Ignored tags (`Mp4Parser.IGNORE`). -/
def ignoreL : List Bytes :=
  [ascii "co64", ascii "ctts", ascii "dref", ascii "elst", ascii "free", ascii "hdlr",
   ascii "mdat", ascii "sdtp", ascii "stco", ascii "stsc", ascii "stsd", ascii "stss",
   ascii "stts", ascii "stsz"]

/-- Result of reading one box header at `off` (lines 107-114 of the source). -/
inductive HRes where
  /-- `unpack('!I', fd.read(4))` failed: fewer than 4 bytes remained. -/
  | szShort : HRes
  /-- The 32-bit size field was 1 but `unpack('!Q', fd.read(8))` failed;
  carries the tag just read (the `size` variable holds 1 at this point). -/
  | extShort : Bytes → HRes
  /-- Header read succeeded: cursor after the optional `offset += 8`,
  the `size` variable (an `Int`: `Q - 8` can be negative), the declared
  size (`size` field, or the 64-bit `Q`), the tag bytes, and the file
  position after the header. -/
  | hok : Int → Int → Nat → Bytes → Nat → HRes
deriving DecidableEq, Repr

/-- Read one box header at non-negative offset `off`, mirroring lines
107-114: 4-byte big-endian `size`, 4-byte `tag`, and when `size == 1` an
8-byte big-endian extended size `Q` with `size := Q - 8` and `offset += 8`. -/
def readHeader (file : Bytes) (off : Int) : HRes :=
  let pos := off.toNat
  let szB := (file.drop pos).take 4
  if szB.length = 4 then
    let s : Nat := beVal szB
    let tag := (file.drop (pos + 4)).take 4
    if s = 1 then
      let qB := (file.drop (pos + 8)).take 8
      if qB.length = 8 then
        let q : Nat := beVal qB
        HRes.hok (off + 8) ((q : Int) - 8) q tag (pos + 16)
      else HRes.extShort tag
    else HRes.hok off (s : Int) s tag (pos + 8)
  else HRes.szShort

/-- The bare `except` handler of `_parse` (lines 129-140): with `last` the
`(tag, size)` locals from the preceding iteration (or `none` on the first
iteration, in which case printing `tag` raises and the generator crashes). -/
def pexcept (file : Bytes) (b e off : Int) (last : Option (Bytes × Int)) : ParseOut :=
  match last with
  | none => ⟨[], [], [], PExit.crash⟩
  | some (t, s) => ⟨[], [⟨file.length, b, e, t, off, s⟩], [], PExit.ok⟩

/-- The `_parse` loop (lines 103-141) with explicit fuel: one unit of fuel
per loop iteration.  `b`/`e` are the `begin`/`end` arguments, `off` the
`offset` local, `last` the `(tag, size)` locals of the previous iteration.
A nested call that crashes is caught by this call's own `except`. -/
def parseGo (file : Bytes) : Nat → Int → Int → Int → Option (Bytes × Int) → ParseOut
  | 0, _, e, off, _ =>
    if off < e then ⟨[], [], [], PExit.outOfFuel⟩ else ⟨[], [], [], PExit.ok⟩
  | fuel + 1, b, e, off, last =>
    if off < e then
      if off < 0 then pexcept file b e off last
      else
        match readHeader file off with
        | HRes.szShort => pexcept file b e off last
        | HRes.extShort tag => pexcept file b e off (some (tag, 1))
        | HRes.hok off2 size dcl tag pos =>
          if tag ∈ containersL then
            let skip : Int := if tag = ascii "meta" then 12 else 8
            let inner := parseGo file fuel (off2 + skip) (off2 + size) (off2 + skip) none
            match inner.exit with
            | PExit.crash =>
              ⟨inner.pairs, inner.diags ++ [⟨file.length, b, e, tag, off2, size⟩],
               dcl :: inner.sizes, PExit.ok⟩
            | PExit.outOfFuel =>
              ⟨inner.pairs, inner.diags, dcl :: inner.sizes, PExit.outOfFuel⟩
            | PExit.ok =>
              let rest := parseGo file fuel b e (off2 + size) (some (tag, size))
              ⟨inner.pairs ++ rest.pairs, inner.diags ++ rest.diags,
               dcl :: (inner.sizes ++ rest.sizes), rest.exit⟩
          else if tag ∈ ignoreL then
            let rest := parseGo file fuel b e (off2 + size) (some (tag, size))
            ⟨rest.pairs, rest.diags, dcl :: rest.sizes, rest.exit⟩
          else
            let data := pyRead file pos (size - 8)
            let rest := parseGo file fuel b e (off2 + size) (some (tag, size))
            ⟨(tag, data) :: rest.pairs, rest.diags, dcl :: rest.sizes, rest.exit⟩
    else ⟨[], [], [], PExit.ok⟩

/-- `_parse(fd, begin, end)` as called from outside. -/
def parseF (fuel : Nat) (file : Bytes) (b e : Int) : ParseOut :=
  parseGo file fuel b e b none

/-! ## Tag Value Normalizer (`Mp4Parser._save`, lines 147-350) -/

/-- Python values as they occur in the record: strings, ints, booleans,
raw bytes, `None`, the exact value of the one float division
(numerator/denominator of `values[3] / values[2]` in the `mvhd` branch),
lists and (insertion-ordered) dicts. -/
inductive Val where
  | vstr : String → Val
  | vint : Int → Val
  | vbool : Bool → Val
  | vbytes : Bytes → Val
  | vnone : Val
  | vfrac : Nat → Nat → Val
  | vlist : List Val → Val
  | vdict : List (String × Val) → Val

/-- Python truthiness of a `Val` (line 338 `if value:`). -/
def Val.truthy : Val → Bool
  | Val.vstr s => !s.data.isEmpty
  | Val.vint n => n ≠ 0
  | Val.vbool b => b
  | Val.vbytes bs => !bs.isEmpty
  | Val.vnone => false
  | Val.vfrac n _ => n ≠ 0
  | Val.vlist l => !l.isEmpty
  | Val.vdict d => !d.isEmpty

/-- A record key: the resolved title string, or the raw tag bytes when the
tag is absent from `TITLES` (line 167). -/
inductive RKey where
  | ks : String → RKey
  | kb : Bytes → RKey
deriving DecidableEq

/-- The accumulating record: a Python dict, i.e. an insertion-ordered
association list with unique keys. -/
abbrev Record := List (RKey × Val)

/-- Dict lookup. -/
def recGet : Record → RKey → Option Val
  | [], _ => none
  | (k', v') :: r, k => if k' = k then some v' else recGet r k

/-- Dict assignment `self[key] = v`: replace in place, else append. -/
def recSet : Record → RKey → Val → Record
  | [], k, v => [(k, v)]
  | (k', v') :: r, k, v => if k' = k then (k, v) :: r else (k', v') :: recSet r k v

/-- Fold one `(key, value)` contribution into the record (lines 341-347):
append to an existing list, promote an existing scalar to a two-element
list, or insert fresh. -/
def fold1 (r : Record) (k : RKey) (v : Val) : Record :=
  match recGet r k with
  | some (Val.vlist xs) => recSet r k (Val.vlist (xs ++ [v]))
  | some w => recSet r k (Val.vlist [w, v])
  | none => recSet r k v

/-- Lines 337-349: skip falsy values; wrap a non-dict value as
`{key: value}`; fold each contribution. -/
def saveFold (r : Record) (key : RKey) (v : Val) : Record :=
  if v.truthy then
    match v with
    | Val.vdict items => items.foldl (fun acc kv => fold1 acc (RKey.ks kv.1) kv.2) r
    | _ => fold1 r key v
  else r

/-- Python-exception outcomes of `_save` (none are caught inside `_save`;
they propagate to the caller). -/
inductive PyErr where
  | structError
  | keyError
  | unicodeError
  | indexError
  | typeError
  | attributeError
  | xmlError
  | zeroDiv
  | fuelOut
deriving DecidableEq, Repr

/-- Bytes-keyed Python dict assignment (freeform sub-record collection). -/
def alUpdate : List (Bytes × Bytes) → Bytes → Bytes → List (Bytes × Bytes)
  | [], k, v => [(k, v)]
  | (k', v') :: r, k, v => if k' = k then (k, v) :: r else (k', v') :: alUpdate r k v

/-- Bytes-keyed dict lookup. -/
def lookupB : List (Bytes × Bytes) → Bytes → Option Bytes
  | [], _ => none
  | (k', v') :: r, k => if k' = k then some v' else lookupB r k

/-- String-keyed Python dict assignment (used by the `iTunMOVI` walk). -/
def alUpdateS : List (String × Val) → String → Val → List (String × Val)
  | [], k, v => [(k, v)]
  | (k', v') :: r, k, v => if k' = k then (k, v) :: r else (k', v') :: alUpdateS r k v

/-- The freeform (`----`) sub-record loop (lines 150-157): 4-byte signed
big-endian length, 4-byte sub-type, 4 bytes skipped, `value[off+12:off+size]`
as data; the loop does not advance when `size ≤ 0`, hence the fuel. -/
def subRecords (v : Bytes) : Nat → Int → List (Bytes × Bytes) →
    Except PyErr (List (Bytes × Bytes))
  | 0, off, acc => if off < (v.length : Int) then Except.error PyErr.fuelOut else Except.ok acc
  | fuel + 1, off, acc =>
    if off < (v.length : Int) then
      let szB := pySlice v off (off + 4)
      if szB.length = 4 then
        let size : Int := signed32 (beVal szB)
        let ty := pySlice v (off + 4) (off + 8)
        let data := pySlice v (off + 12) (off + size)
        subRecords v fuel (off + size) (alUpdate acc ty data)
      else Except.error PyErr.structError
    else Except.ok acc

/-- Lines 149-164: when the tag is the freeform sentinel `----`, collect the
sub-records and re-target the box through its `name`/`data` entries (plain
dict indexing: a missing entry raises `KeyError`). -/
def retag (fuel : Nat) (tag0 v0 : Bytes) : Except PyErr (Bytes × Bytes) :=
  if tag0 = ascii "----" then
    match subRecords v0 fuel 0 [] with
    | Except.error err => Except.error err
    | Except.ok recs =>
      match lookupB recs (ascii "name") with
      | none => Except.error PyErr.keyError
      | some t =>
        match lookupB recs (ascii "data") with
        | none => Except.error PyErr.keyError
        | some d => Except.ok (t, d)
  else Except.ok (tag0, v0)

/-- The tag → title table (`Mp4Parser.TITLES`), reproduced verbatim. -/
def titleTable : List (Bytes × String) :=
  [(169 :: ascii "alb", "Album"),
   (169 :: ascii "ART", "Cast"),
   (169 :: ascii "nam", "Title"),
   (169 :: ascii "day", "Released"),
   (169 :: ascii "gen", "Genre"),
   (169 :: ascii "cmt", "Comment"),
   (169 :: ascii "wrt", "Writer"),
   (169 :: ascii "too", "Tool"),
   (ascii "cnID", "Catalog ID"),
   (ascii "covr", "Cover"),
   (ascii "desc", "Description"),
   (ascii "ftyp", "File type compatibility"),
   (ascii "gmin", "Base media information"),
   (ascii "hdvd", "High definition"),
   (ascii "iTunEXTC", "iTunes content rating"),
   (ascii "iTunMOVI", "iTunes movie information"),
   (ascii "ldes", "Description"),
   (ascii "mdhd", "Media header"),
   (ascii "mvhd", "Movie header"),
   (ascii "sdes", "Show description"),
   (ascii "smhd", "Sound media informtion"),
   (ascii "stik", "Media type"),
   (ascii "tkhd", "Track header"),
   (ascii "tref", "Track reference"),
   (ascii "trkn", "Track number"),
   (ascii "tven", "Episode title"),
   (ascii "tvnn", "TV station"),
   (ascii "tves", "TV episode"),
   (ascii "tvsn", "TV season"),
   (ascii "tvsh", "TV show"),
   (ascii "vmhd", "Video info")]

/-- Title lookup (`tag in Mp4Parser.TITLES`). -/
def titles (t : Bytes) : Option String :=
  (titleTable.find? (fun p => p.1 == t)).map (fun p => p.2)

/-- UTF-8 decoding (Python `bytes.decode('utf-8')`), strict: rejects
continuation-lead bytes, overlong forms, surrogates and values past
U+10FFFF.  Fuel is the byte count; each step consumes at least one byte. -/
def utf8Go (isCont : Nat → Bool) : Nat → List Nat → Option (List Char)
  | _, [] => some []
  | 0, _ :: _ => none
  | fuel + 1, b :: bs =>
    if b < 128 then (utf8Go isCont fuel bs).map (fun cs => Char.ofNat b :: cs)
    else if b < 194 then none
    else if b < 224 then
      match bs with
      | b1 :: bs2 =>
        if isCont b1 then
          (utf8Go isCont fuel bs2).map (fun cs => Char.ofNat ((b - 192) * 64 + (b1 - 128)) :: cs)
        else none
      | [] => none
    else if b < 240 then
      match bs with
      | b1 :: b2 :: bs3 =>
        let cp := (b - 224) * 4096 + (b1 - 128) * 64 + (b2 - 128)
        if isCont b1 && isCont b2 && !(b = 224 && b1 < 160) && !(55296 ≤ cp && cp ≤ 57343) then
          (utf8Go isCont fuel bs3).map (fun cs => Char.ofNat cp :: cs)
        else none
      | _ => none
    else if b < 245 then
      match bs with
      | b1 :: b2 :: b3 :: bs4 =>
        let cp := (b - 240) * 262144 + (b1 - 128) * 4096 + (b2 - 128) * 64 + (b3 - 128)
        if isCont b1 && isCont b2 && isCont b3 && !(b = 240 && b1 < 144) && cp ≤ 1114111 then
          (utf8Go isCont fuel bs4).map (fun cs => Char.ofNat cp :: cs)
        else none
      | _ => none
    else none

/-- Decode bytes as a UTF-8 string, `none` on `UnicodeDecodeError`. -/
def utf8Str (bs : Bytes) : Option String :=
  (utf8Go (fun c => 128 ≤ c && c < 192) bs.length bs).map String.mk

/-- Python `str.split(sep)` for a non-empty separator: leftmost,
non-overlapping.  Fuel is the character count. -/
def pySplitGo (sep : List Char) : Nat → List Char → List Char → List (List Char)
  | 0, cur, rest => [cur.reverse ++ rest]
  | fuel + 1, cur, rest =>
    if sep.isPrefixOf rest then
      cur.reverse :: pySplitGo sep fuel [] (rest.drop sep.length)
    else
      match rest with
      | [] => [cur.reverse]
      | c :: r => pySplitGo sep fuel (c :: cur) r

/-- Python `s.split(sep)`. -/
def pySplit (sep : String) (s : String) : List String :=
  (pySplitGo sep.data (s.data.length + 1) [] s.data).map String.mk

/-- An `xml.etree` element: tag, text, children. -/
inductive XNode where
  | node : String → Option String → List XNode → XNode

def XNode.xtag : XNode → String
  | XNode.node t _ _ => t

def XNode.xtext : XNode → Option String
  | XNode.node _ t _ => t

def XNode.children : XNode → List XNode
  | XNode.node _ _ c => c

/-- `element.find(t)`: first direct child with the given tag, if any. -/
def findChild (n : XNode) (t : String) : Option XNode :=
  n.children.find? (fun c => c.xtag == t)

/-- Line 205's comprehension body: for each direct `dict` child, the text of
its first `string` child (`d.find('string').text`; `AttributeError` when
there is no `string` child, a `None` text value is kept as `None`). -/
def arrStrings : List XNode → Except PyErr (List Val)
  | [] => Except.ok []
  | d :: ds =>
    match findChild d "string" with
    | none => Except.error PyErr.attributeError
    | some sn =>
      match arrStrings ds with
      | Except.error err => Except.error err
      | Except.ok vs =>
        Except.ok ((match sn.xtext with
          | some t => Val.vstr t
          | none => Val.vnone) :: vs)

/-- The `iTunMOVI` key/value walk over the children of the top-level `dict`
node (lines 200-212).  `key` is the pending field name; it starts out as the
`key` variable of `_save`, i.e. the box's resolved title.  A `key` node
capitalizes its text's first character (`node.text[0]` raises on `None` or
empty text); `array`/`string` nodes record a value for a truthy pending key
and clear it; anything else is skipped. -/
def itunWalk : List XNode → String → List (String × Val) →
    Except PyErr (List (String × Val))
  | [], _, acc => Except.ok acc
  | n :: ns, key, acc =>
    if n.xtag = "key" then
      match n.xtext with
      | none => Except.error PyErr.typeError
      | some t =>
        match t.data with
        | [] => Except.error PyErr.indexError
        | c :: cs => itunWalk ns (String.mk (Char.toUpper c :: cs)) acc
    else if key ≠ "" ∧ n.xtag = "array" then
      match arrStrings (n.children.filter (fun c => c.xtag == "dict")) with
      | Except.error err => Except.error err
      | Except.ok vs => itunWalk ns "" (alUpdateS acc key (Val.vlist vs))
    else if key ≠ "" ∧ n.xtag = "string" then
      itunWalk ns ""
        (alUpdateS acc key (match n.xtext with | some t => Val.vstr t | none => Val.vnone))
    else itunWalk ns key acc

/-- The string held by the `key` variable (always a title string on the
paths that use it: `iTunMOVI` is in `TITLES`). -/
def keyString : RKey → String
  | RKey.ks s => s
  | RKey.kb _ => ""

/-- The `stik` enumeration chain (lines 274-285). -/
def stikName (n : Nat) : String :=
  if n = 0 then "Movie"
  else if n = 1 then "Music"
  else if n = 2 then "Audiobook"
  else if n = 6 then "Music video"
  else if n = 9 then "Movie"
  else if n = 10 then "TV show"
  else if n = 11 then "Booklet"
  else if n = 14 then "Ringtone"
  else if n = 21 then "Podcast"
  else if n = 23 then "iTunes U"
  else "Unknown #" ++ toString n

/-- The per-tag decoder chain (lines 169-335), applied after key
resolution/re-targeting.  `xmlParse` stands for the external
`ET.fromstring`.  `struct.unpack` demands the exact byte count of its
format, else `struct.error`. -/
def decodeVal (xmlParse : String → Except PyErr XNode) (tag : Bytes) (key : RKey)
    (v : Bytes) : Except PyErr Val :=
  if tag = 169 :: ascii "ART" ∨ tag = 169 :: ascii "gen" then
    match utf8Str (v.drop 16) with
    | none => Except.error PyErr.unicodeError
    | some s => Except.ok (Val.vlist ((pySplit ", " s).map Val.vstr))
  else if tag = ascii "cnID" ∨ tag = ascii "tves" ∨ tag = ascii "tvsn" then
    Except.ok (Val.vint (beVal (v.drop 16)))
  else if tag = ascii "hdvd" then Except.ok (Val.vbool false)
  else if tag = ascii "iTunEXTC" then
    match utf8Str (v.drop 4) with
    | none => Except.error PyErr.unicodeError
    | some s =>
      match (pySplit "|" s).get? 1 with
      | none => Except.error PyErr.indexError
      | some rating => Except.ok (Val.vdict [("Rating", Val.vstr rating)])
  else if tag = ascii "iTunMOVI" then
    match utf8Str (v.drop 4) with
    | none => Except.error PyErr.unicodeError
    | some s =>
      match xmlParse s with
      | Except.error err => Except.error err
      | Except.ok root =>
        match findChild root "dict" with
        | none => Except.error PyErr.typeError
        | some dn =>
          match itunWalk dn.children (keyString key) [] with
          | Except.error err => Except.error err
          | Except.ok results => Except.ok (Val.vdict results)
  else if tag = ascii "ftyp" then Except.ok (Val.vbool false)
  else if tag = ascii "gmin" then Except.ok (Val.vbool false)
  else if tag = ascii "mdhd" then
    if v.length = 24 then Except.ok (Val.vbool false) else Except.error PyErr.structError
  else if tag = ascii "mvhd" then
    if v.length = 100 then
      let timescale := beVal (sliceN v 12 16)
      let duration := beVal (sliceN v 16 20)
      if timescale = 0 then Except.error PyErr.zeroDiv
      else Except.ok (Val.vdict [("Duration", Val.vfrac duration timescale)])
    else Except.error PyErr.structError
  else if tag = ascii "smhd" then Except.ok (Val.vbool false)
  else if tag = ascii "stik" then
    Except.ok (Val.vstr (stikName (leVal (v.drop 17))))
  else if tag = ascii "tkhd" then
    if v.length = 84 then
      let altGroup := beVal (sliceN v 34 36)
      let w := beVal (sliceN v 76 80)
      let h := beVal (sliceN v 80 84)
      if altGroup = 0 ∧ w ≠ 0 ∧ h ≠ 0 then
        Except.ok (Val.vdict [("Width", Val.vint (w / 65536)), ("Height", Val.vint (h / 65536))])
      else Except.ok (Val.vbool false)
    else Except.error PyErr.structError
  else if tag = ascii "tref" then Except.ok (Val.vbool false)
  else if tag = ascii "trkn" then Except.ok (Val.vint (leVal (v.drop 8)))
  else if tag = ascii "vmhd" then Except.ok (Val.vbool false)
  else
    let b := v.drop 16
    Except.ok (match utf8Str b with | some s => Val.vstr s | none => Val.vbytes b)

/-- `Mp4Parser._save` (lines 147-350): freeform re-targeting, key
resolution, per-tag decoding, then the falsy-skipping merge-fold.  Any
modelled Python exception is returned as an error (in the source it
propagates out of `_save` and aborts the whole `Mp4Parser` constructor). -/
def save (xmlParse : String → Except PyErr XNode) (fuel : Nat) (r : Record)
    (tag0 v0 : Bytes) : Except PyErr Record :=
  match retag fuel tag0 v0 with
  | Except.error err => Except.error err
  | Except.ok (tag, v) =>
    let key : RKey := match titles tag with | some s => RKey.ks s | none => RKey.kb tag
    match decodeVal xmlParse tag key v with
    | Except.error err => Except.error err
    | Except.ok value => Except.ok (saveFold r key value)

/-- A stand-in XML parser for paths that never reach the `iTunMOVI` branch. -/
def noXml : String → Except PyErr XNode := fun _ => Except.error PyErr.xmlError

/-! ## Walker lemmas -/

/-- Shifting an `HRes` by a prefix length. -/
def HRes.shift (k : Nat) : HRes → HRes
  | HRes.szShort => HRes.szShort
  | HRes.extShort t => HRes.extShort t
  | HRes.hok o s d t p => HRes.hok ((k : Int) + o) s d t (k + p)

theorem pyRead_shift (pre body : List Nat) (pos : Nat) (n : Int) :
    pyRead (pre ++ body) (pre.length + pos) n = pyRead body pos n := by
  unfold pyRead
  rw [List.drop_append pos]

theorem readHeader_shift (pre body : List Nat) (off : Int) (h : 0 ≤ off) :
    readHeader (pre ++ body) ((pre.length : Int) + off) =
      HRes.shift pre.length (readHeader body off) := by
  have ht : ((pre.length : Int) + off).toNat = pre.length + off.toNat :=
    Int.toNat_add (Int.ofNat_nonneg _) h
  unfold readHeader
  simp only [ht, Nat.add_assoc, List.drop_append]
  split_ifs <;> simp only [HRes.shift, HRes.hok.injEq, and_true, true_and] <;>
    first
    | rfl
    | trivial
    | omega

theorem readHeader_ok_facts {file : List Nat} {off o2 sz : Int} {dcl : Nat} {tag : Bytes}
    {pos : Nat} (h0 : 0 ≤ off) (h : readHeader file off = HRes.hok o2 sz dcl tag pos) :
    (o2 = off ∨ o2 = off + 8) ∧ o2 + sz = off + (dcl : Int) ∧ pos = o2.toNat + 8 ∧
      off.toNat + 4 ≤ file.length := by
  simp only [readHeader] at h
  have hlen : ((file.drop off.toNat).take 4).length = min 4 (file.length - off.toNat) := by
    rw [List.length_take, List.length_drop]
  split_ifs at h with h1 h2 h3
  all_goals
    first
    | exact HRes.noConfusion h
    | (cases h
       refine ⟨by omega, by omega, by omega, ?_⟩
       rw [hlen] at h1
       omega)

/-- Observable equality of two walker outcomes: same yielded pairs, same
declared-size trace, same exit (diagnostics may differ in their absolute
offsets). -/
def obsEq (o1 o2 : ParseOut) : Prop :=
  o1.pairs = o2.pairs ∧ o1.sizes = o2.sizes ∧ o1.exit = o2.exit

/-- The walker's behaviour on a range depends only on the bytes reachable at
non-negative offsets of the range's frame: parsing `body` behind two
different prefixes (with all positions shifted by the prefix length) is
observably identical. -/
theorem parseGo_shift (pre1 pre2 body : List Nat) (fuel : Nat) :
    ∀ (b e off : Int) (last : Option (Bytes × Int)), 0 ≤ off →
    obsEq
      (parseGo (pre1 ++ body) fuel ((pre1.length : Int) + b) ((pre1.length : Int) + e)
        ((pre1.length : Int) + off) last)
      (parseGo (pre2 ++ body) fuel ((pre2.length : Int) + b) ((pre2.length : Int) + e)
        ((pre2.length : Int) + off) last) := by
  induction fuel with
  | zero =>
    intro b e off last h
    have c1 : ((pre1.length : Int) + off < (pre1.length : Int) + e) ↔ off < e := by omega
    have c2 : ((pre2.length : Int) + off < (pre2.length : Int) + e) ↔ off < e := by omega
    by_cases hoe : off < e
    · simp only [parseGo, if_pos (c1.mpr hoe), if_pos (c2.mpr hoe)]
      exact ⟨rfl, rfl, rfl⟩
    · simp only [parseGo, if_neg (fun hc => hoe (c1.mp hc)), if_neg (fun hc => hoe (c2.mp hc))]
      exact ⟨rfl, rfl, rfl⟩
  | succ fuel ih =>
    intro b e off last h
    have c1 : ((pre1.length : Int) + off < (pre1.length : Int) + e) ↔ off < e := by omega
    have c2 : ((pre2.length : Int) + off < (pre2.length : Int) + e) ↔ off < e := by omega
    by_cases hoe : off < e
    · have hn1 : ¬ ((pre1.length : Int) + off < 0) := by omega
      have hn2 : ¬ ((pre2.length : Int) + off < 0) := by omega
      simp only [parseGo, if_pos (c1.mpr hoe), if_pos (c2.mpr hoe), if_neg hn1, if_neg hn2,
        readHeader_shift pre1 body off h, readHeader_shift pre2 body off h]
      cases hh : readHeader body off with
      | szShort =>
        simp only [HRes.shift]
        cases last with
        | none => exact ⟨rfl, rfl, rfl⟩
        | some ts => exact ⟨rfl, rfl, rfl⟩
      | extShort t =>
        simp only [HRes.shift]
        exact ⟨rfl, rfl, rfl⟩
      | hok o2 sz dcl tag pos =>
        obtain ⟨ho2, hsum, hpos, hhdr⟩ := readHeader_ok_facts h hh
        have ho2nn : 0 ≤ o2 := by omega
        simp only [HRes.shift]
        by_cases hc : tag ∈ containersL
        · simp only [if_pos hc]
          have hskip : (0 : Int) ≤ (if tag = ascii "meta" then (12 : Int) else 8) := by
            split <;> omega
          have hinn : 0 ≤ o2 + (if tag = ascii "meta" then (12 : Int) else 8) := by omega
          have e1 : ∀ k : Nat, (k : Int) + o2 + (if tag = ascii "meta" then (12 : Int) else 8) =
              (k : Int) + (o2 + (if tag = ascii "meta" then (12 : Int) else 8)) := by
            intro k; omega
          have e2 : ∀ k : Nat, (k : Int) + o2 + sz = (k : Int) + (o2 + sz) := by
            intro k; omega
          rw [e1 pre1.length, e1 pre2.length, e2 pre1.length, e2 pre2.length]
          have hi := ih (o2 + (if tag = ascii "meta" then (12 : Int) else 8)) (o2 + sz)
            (o2 + (if tag = ascii "meta" then (12 : Int) else 8)) none hinn
          obtain ⟨hip, his, hie⟩ := hi
          rw [← hie]
          cases hx : (parseGo (pre1 ++ body) fuel
              ((pre1.length : Int) + (o2 + (if tag = ascii "meta" then (12 : Int) else 8)))
              ((pre1.length : Int) + (o2 + sz))
              ((pre1.length : Int) + (o2 + (if tag = ascii "meta" then (12 : Int) else 8)))
              none).exit with
          | crash => exact ⟨by rw [hip], by rw [his], rfl⟩
          | outOfFuel => exact ⟨by rw [hip], by rw [his], rfl⟩
          | ok =>
            have hrnn : 0 ≤ o2 + sz := by omega
            have hr := ih b e (o2 + sz) (some (tag, sz)) hrnn
            obtain ⟨hrp, hrs, hre⟩ := hr
            exact ⟨by rw [hip, hrp], by rw [his, hrs], by rw [hre]⟩
        · simp only [if_neg hc]
          by_cases hig : tag ∈ ignoreL
          · simp only [if_pos hig]
            have e2 : ∀ k : Nat, (k : Int) + o2 + sz = (k : Int) + (o2 + sz) := by
              intro k; omega
            rw [e2 pre1.length, e2 pre2.length]
            have hrnn : 0 ≤ o2 + sz := by omega
            have hr := ih b e (o2 + sz) (some (tag, sz)) hrnn
            obtain ⟨hrp, hrs, hre⟩ := hr
            exact ⟨by rw [hrp], by rw [hrs], by rw [hre]⟩
          · simp only [if_neg hig]
            have e2 : ∀ k : Nat, (k : Int) + o2 + sz = (k : Int) + (o2 + sz) := by
              intro k; omega
            rw [e2 pre1.length, e2 pre2.length]
            have hrnn : 0 ≤ o2 + sz := by omega
            have hr := ih b e (o2 + sz) (some (tag, sz)) hrnn
            obtain ⟨hrp, hrs, hre⟩ := hr
            rw [pyRead_shift pre1 body pos, pyRead_shift pre2 body pos]
            exact ⟨by rw [hrp], by rw [hrs], by rw [hre]⟩
    · simp only [parseGo, if_neg (fun hc => hoe (c1.mp hc)), if_neg (fun hc => hoe (c2.mp hc))]
      exact ⟨rfl, rfl, rfl⟩

/-! ## Termination analysis of the walker -/

/-- Fuel potential for the walker at offset `off` of range end `e`: iterations
of one frame stop at `min e (L+1)` (past the file, the next header read
fails), and every nested frame starts at least 8 bytes further into the
file, bounding the nesting. -/
def psi (file : Bytes) (e off : Int) : Nat :=
  (min e ((file.length : Int) + 1) - off).toNat +
    file.length * (((file.length : Int) + 1) - off).toNat

theorem psi_key (L A A' x y : Nat) (h1 : A' ≤ y) (h2 : y + 8 ≤ x ∨ y = 0)
    (h3 : 5 ≤ x) (h4 : x ≤ L + 1) (h5 : 4 ≤ L) :
    A' + L * y + 1 ≤ A + L * x := by
  rcases h2 with h2 | h2
  · have hm : L * (y + 8) ≤ L * x := Nat.mul_le_mul_left L h2
    have h6 : A' + 1 ≤ 8 * L := by omega
    calc A' + L * y + 1 = (A' + 1) + L * y := by ring
      _ ≤ 8 * L + L * y := Nat.add_le_add_right h6 _
      _ = L * (y + 8) := by ring
      _ ≤ L * x := hm
      _ ≤ A + L * x := Nat.le_add_left _ _
  · have hp : 0 < L * x := Nat.mul_pos (by omega) (by omega)
    subst h2
    calc A' + L * 0 + 1 = A' + 1 := by ring
      _ ≤ 1 := by omega
      _ ≤ L * x := hp
      _ ≤ A + L * x := Nat.le_add_left _ _

/-- The potential strictly decreases when the cursor advances by a positive
declared size within the loop of one frame. -/
theorem psi_rest {file : Bytes} {e off : Int} {dcl : Nat}
    (hlt : off < e) (hh : off.toNat + 4 ≤ file.length) (hd : 1 ≤ dcl) :
    psi file e (off + (dcl : Int)) + 1 ≤ psi file e off := by
  have hx : (((file.length : Int) + 1) - (off + (dcl : Int))).toNat ≤
      (((file.length : Int) + 1) - off).toNat := by omega
  have hA : (min e ((file.length : Int) + 1) - (off + (dcl : Int))).toNat + 1 ≤
      (min e ((file.length : Int) + 1) - off).toNat := by omega
  have hm := Nat.mul_le_mul_left file.length hx
  unfold psi
  calc (min e ((file.length : Int) + 1) - (off + (dcl : Int))).toNat +
        file.length * (((file.length : Int) + 1) - (off + (dcl : Int))).toNat + 1
      = ((min e ((file.length : Int) + 1) - (off + (dcl : Int))).toNat + 1) +
        file.length * (((file.length : Int) + 1) - (off + (dcl : Int))).toNat := by ring
    _ ≤ (min e ((file.length : Int) + 1) - off).toNat +
        file.length * (((file.length : Int) + 1) - off).toNat := Nat.add_le_add hA hm

/-- The potential strictly decreases into a container recursion: the child
frame starts at least 8 bytes further into the file. -/
theorem psi_inner {file : Bytes} {e off o2 skip : Int} {dcl : Nat}
    (h0 : 0 ≤ off) (hh : off.toNat + 4 ≤ file.length)
    (ho2 : o2 = off ∨ o2 = off + 8) (hskip : skip = 8 ∨ skip = 12) :
    psi file (off + (dcl : Int)) (o2 + skip) + 1 ≤ psi file e off := by
  have h1 : (min (off + (dcl : Int)) ((file.length : Int) + 1) - (o2 + skip)).toNat ≤
      (((file.length : Int) + 1) - (o2 + skip)).toNat := by omega
  have h2 : (((file.length : Int) + 1) - (o2 + skip)).toNat + 8 ≤
        (((file.length : Int) + 1) - off).toNat ∨
      (((file.length : Int) + 1) - (o2 + skip)).toNat = 0 := by omega
  have h3 : 5 ≤ (((file.length : Int) + 1) - off).toNat := by omega
  have h4 : (((file.length : Int) + 1) - off).toNat ≤ file.length + 1 := by omega
  have h5 : 4 ≤ file.length := by omega
  unfold psi
  calc (min (off + (dcl : Int)) ((file.length : Int) + 1) - (o2 + skip)).toNat +
        file.length * (((file.length : Int) + 1) - (o2 + skip)).toNat + 1
      ≤ (min e ((file.length : Int) + 1) - off).toNat +
        file.length * (((file.length : Int) + 1) - off).toNat :=
        psi_key file.length _ _ _ _ h1 h2 h3 h4 h5
    _ = _ := rfl

/-- Fuel sufficiency: when no visited box header declares size 0, fuel
`psi file e off + 1` is enough — the walker does not run out of fuel,
i.e. the source's loop terminates. -/
theorem parse_sufficient (fuel : Nat) :
    ∀ (file : Bytes) (b e off : Int) (last : Option (Bytes × Int)),
      psi file e off < fuel →
      0 ∉ (parseGo file fuel b e off last).sizes →
      (parseGo file fuel b e off last).exit ≠ PExit.outOfFuel := by
  induction fuel with
  | zero => intro file b e off last hf _; exact absurd hf (Nat.not_lt_zero _)
  | succ fuel ih =>
    intro file b e off last hf hs
    by_cases hoe : off < e
    · by_cases hneg : off < 0
      · simp only [parseGo, if_pos hoe, if_pos hneg, pexcept]
        cases last with
        | none => simp
        | some ts => simp
      · simp only [parseGo, if_pos hoe, if_neg hneg] at hs ⊢
        cases hh : readHeader file off with
        | szShort =>
          simp only [hh, pexcept]
          cases last with
          | none => simp
          | some ts => simp
        | extShort t => simp only [hh, pexcept]; simp
        | hok o2 sz dcl tag pos =>
          have hof : 0 ≤ off := by omega
          obtain ⟨ho2, hsum, hpos, hhdr⟩ := readHeader_ok_facts hof hh
          simp only [hh] at hs ⊢
          have hskip : (if tag = ascii "meta" then (12 : Int) else 8) = 8 ∨
              (if tag = ascii "meta" then (12 : Int) else 8) = 12 := by
            split
            · exact Or.inr rfl
            · exact Or.inl rfl
          by_cases hc : tag ∈ containersL
          · simp only [if_pos hc] at hs ⊢
            cases hinner : (parseGo file fuel (o2 + (if tag = ascii "meta" then (12 : Int) else 8))
                (o2 + sz) (o2 + (if tag = ascii "meta" then (12 : Int) else 8)) none).exit with
            | crash => simp only [hinner]; simp
            | outOfFuel =>
              exfalso
              simp only [hinner, List.mem_cons] at hs
              push_neg at hs
              have hpi : psi file (o2 + sz) (o2 + (if tag = ascii "meta" then (12 : Int) else 8))
                  < fuel := by
                have := @psi_inner file e off o2 _ dcl hof hhdr ho2 hskip
                rw [hsum]
                omega
              exact ih file (o2 + (if tag = ascii "meta" then (12 : Int) else 8)) (o2 + sz)
                (o2 + (if tag = ascii "meta" then (12 : Int) else 8)) none hpi hs.2 hinner
            | ok =>
              simp only [hinner, List.mem_cons, List.mem_append] at hs ⊢
              push_neg at hs
              have hd : 1 ≤ dcl := by omega
              have hpr : psi file e (o2 + sz) < fuel := by
                have := @psi_rest file e off dcl hoe hhdr hd
                rw [hsum]
                omega
              exact ih file b e (o2 + sz) (some (tag, sz)) hpr hs.2.2
          · simp only [if_neg hc] at hs ⊢
            by_cases hig : tag ∈ ignoreL
            · simp only [if_pos hig, List.mem_cons] at hs ⊢
              push_neg at hs
              have hd : 1 ≤ dcl := by omega
              have hpr : psi file e (o2 + sz) < fuel := by
                have := @psi_rest file e off dcl hoe hhdr hd
                rw [hsum]
                omega
              exact ih file b e (o2 + sz) (some (tag, sz)) hpr hs.2
            · simp only [if_neg hig, List.mem_cons] at hs ⊢
              push_neg at hs
              have hd : 1 ≤ dcl := by omega
              have hpr : psi file e (o2 + sz) < fuel := by
                have := @psi_rest file e off dcl hoe hhdr hd
                rw [hsum]
                omega
              exact ih file b e (o2 + sz) (some (tag, sz)) hpr hs.2
    · simp only [parseGo, if_neg hoe]
      simp

/-- An 8-byte file whose single box declares size 0: the cursor never
advances. -/
def loopFile : Bytes := [0, 0, 0, 0] ++ ascii "abcd"

/-- On `loopFile` the walker revisits the same header forever, re-yielding
the same `(tag, payload)` pair once per iteration, printing no diagnostic,
and running out of any amount of fuel. -/
theorem loopFile_diverges : ∀ (fuel : Nat) (last : Option (Bytes × Int)),
    parseGo loopFile fuel 0 8 0 last =
      ⟨List.replicate fuel (ascii "abcd", []), [], List.replicate fuel 0, PExit.outOfFuel⟩ := by
  intro fuel
  induction fuel with
  | zero => intro last; rfl
  | succ fuel ih =>
    intro last
    have hstep : parseGo loopFile (fuel + 1) 0 8 0 last =
        ⟨(ascii "abcd", []) :: (parseGo loopFile fuel 0 8 0 (some (ascii "abcd", 0))).pairs,
         (parseGo loopFile fuel 0 8 0 (some (ascii "abcd", 0))).diags,
         0 :: (parseGo loopFile fuel 0 8 0 (some (ascii "abcd", 0))).sizes,
         (parseGo loopFile fuel 0 8 0 (some (ascii "abcd", 0))).exit⟩ := rfl
    rw [hstep, ih (some (ascii "abcd", 0))]
    simp [List.replicate_succ]

/-! ## Encoding lemmas -/

theorem beVal_be32 (n : Nat) (h : n < 4294967296) : beVal (be32 n) = n := by
  simp only [beVal, be32, List.foldl_cons, List.foldl_nil]
  omega

theorem beVal_be64 (n : Nat) (h : n < 18446744073709551616) : beVal (be64 n) = n := by
  simp only [beVal, be64, List.foldl_cons, List.foldl_nil]
  omega

theorem be32_length (n : Nat) : (be32 n).length = 4 := rfl

theorem be64_length (n : Nat) : (be64 n).length = 8 := rfl

/-- A box with a direct 32-bit size field. -/
def enc32 (t p : Bytes) : Bytes := be32 (8 + p.length) ++ (t ++ p)

/-- The same box hand-constructed with size field 1 and a 64-bit extended
size (the payload occupies the same relative position after the header). -/
def enc64 (t p : Bytes) : Bytes := be32 1 ++ (t ++ (be64 (16 + p.length) ++ p))

theorem enc32_length (t p : Bytes) (ht : t.length = 4) :
    (enc32 t p).length = 8 + p.length := by
  simp [enc32, be32, ht]
  omega

theorem enc64_length (t p : Bytes) (ht : t.length = 4) :
    (enc64 t p).length = 16 + p.length := by
  simp [enc64, be32, be64, ht]
  omega

theorem readHeader_enc32 (t p : Bytes) (ht : t.length = 4)
    (hp : 8 + p.length < 4294967296) :
    readHeader (enc32 t p) 0 =
      HRes.hok 0 ((8 + p.length : Nat) : Int) (8 + p.length) t 8 := by
  have h1 : ((enc32 t p).drop (0 : Int).toNat).take 4 = be32 (8 + p.length) := by
    show ((be32 (8 + p.length) ++ (t ++ p)).drop 0).take 4 = be32 (8 + p.length)
    rw [List.drop_zero, ← be32_length (8 + p.length)]
    exact List.take_left _ _
  have hd : (be32 (8 + p.length) ++ (t ++ p)).drop 4 = t ++ p := by
    rw [show (4 : Nat) = (be32 (8 + p.length)).length from rfl]
    exact List.drop_left _ _
  have h2 : ((enc32 t p).drop ((0 : Int).toNat + 4)).take 4 = t := by
    show ((be32 (8 + p.length) ++ (t ++ p)).drop 4).take 4 = t
    rw [hd, ← ht]
    exact List.take_left _ _
  have h3 : beVal (be32 (8 + p.length)) = 8 + p.length := beVal_be32 _ hp
  simp only [readHeader, h1, h2, h3, be32_length, if_true]
  rw [if_neg (by omega : ¬ (8 + p.length = 1))]
  rfl

theorem readHeader_enc64 (t p : Bytes) (ht : t.length = 4)
    (hp : 8 + p.length < 4294967296) :
    readHeader (enc64 t p) 0 =
      HRes.hok 8 (((16 + p.length : Nat) : Int) - 8) (16 + p.length) t 16 := by
  have h1 : ((enc64 t p).drop (0 : Int).toNat).take 4 = be32 1 := by
    show ((be32 1 ++ (t ++ (be64 (16 + p.length) ++ p))).drop 0).take 4 = be32 1
    rw [List.drop_zero, show (4 : Nat) = (be32 1).length from rfl]
    exact List.take_left _ _
  have hd : (be32 1 ++ (t ++ (be64 (16 + p.length) ++ p))).drop 4 =
      t ++ (be64 (16 + p.length) ++ p) := by
    rw [show (4 : Nat) = (be32 1).length from rfl]
    exact List.drop_left _ _
  have h2 : ((enc64 t p).drop ((0 : Int).toNat + 4)).take 4 = t := by
    show ((be32 1 ++ (t ++ (be64 (16 + p.length) ++ p))).drop 4).take 4 = t
    rw [hd, ← ht]
    exact List.take_left _ _
  have hd8 : (be32 1 ++ (t ++ (be64 (16 + p.length) ++ p))).drop 8 =
      be64 (16 + p.length) ++ p := by
    rw [show (8 : Nat) = (be32 1).length + 4 from rfl, List.drop_append,
      show (List.drop 4 (t ++ (be64 (16 + p.length) ++ p))) =
        ((t ++ (be64 (16 + p.length) ++ p)).drop t.length) from by rw [ht],
      List.drop_left]
  have h3 : ((enc64 t p).drop ((0 : Int).toNat + 8)).take 8 = be64 (16 + p.length) := by
    show ((be32 1 ++ (t ++ (be64 (16 + p.length) ++ p))).drop 8).take 8 = be64 (16 + p.length)
    rw [hd8, ← be64_length (16 + p.length)]
    exact List.take_left _ _
  have h4 : beVal (be64 (16 + p.length)) = 16 + p.length := beVal_be64 _ (by omega)
  have h5 : beVal (be32 1) = 1 := rfl
  simp only [readHeader, h1, h2, h3, h4, h5, be32_length, be64_length, if_true]
  rfl

theorem parseGo_stop (file : Bytes) (fuel : Nat) (b e off : Int)
    (last : Option (Bytes × Int)) (h : ¬ off < e) :
    parseGo file fuel b e off last = ⟨[], [], [], PExit.ok⟩ := by
  cases fuel <;> simp [parseGo, h]

/-- The two encodings of one box recurse into observably identical child
frames (shifted by the 8 extra header bytes). -/
theorem c4_inner (t p : Bytes) (fuel : Nat) (ht : t.length = 4) (k : Int) (hk : 0 ≤ k - 8) :
    obsEq (parseGo (enc32 t p) fuel k ((8 + p.length : Nat) : Int) k none)
      (parseGo (enc64 t p) fuel (8 + k) ((16 + p.length : Nat) : Int) (8 + k) none) := by
  have h := parseGo_shift (be32 (8 + p.length) ++ t) (be32 1 ++ (t ++ be64 (16 + p.length))) p
    fuel (k - 8) ((p.length : Nat) : Int) (k - 8) none hk
  have hl1 : ((be32 (8 + p.length) ++ t).length : Int) = 8 := by
    simp [ht, be32_length]
  have hl2 : ((be32 1 ++ (t ++ be64 (16 + p.length))).length : Int) = 16 := by
    simp [ht, be32_length, be64_length]
  have e1 : (8 : Int) + (k - 8) = k := by ring
  have e2 : (8 : Int) + (p.length : Int) = ((8 + p.length : Nat) : Int) := by push_cast; ring
  have e3 : (be32 (8 + p.length) ++ t) ++ p = enc32 t p := by
    simp [enc32, List.append_assoc]
  have e1' : (16 : Int) + (k - 8) = 8 + k := by ring
  have e2' : (16 : Int) + (p.length : Int) = ((16 + p.length : Nat) : Int) := by push_cast; ring
  have e3' : (be32 1 ++ (t ++ be64 (16 + p.length))) ++ p = enc64 t p := by
    simp [enc64, List.append_assoc]
  rw [hl1, hl2, e1, e2, e3, e1', e2', e3'] at h
  exact h

theorem enc32_drop8 (t p : Bytes) (ht : t.length = 4) : (enc32 t p).drop 8 = p := by
  have h := List.drop_left (be32 (8 + p.length) ++ t) p
  rw [show (be32 (8 + p.length) ++ t).length = 8 from by simp [ht, be32_length]] at h
  rw [show enc32 t p = (be32 (8 + p.length) ++ t) ++ p from by simp [enc32, List.append_assoc]]
  exact h

theorem enc64_drop16 (t p : Bytes) (ht : t.length = 4) : (enc64 t p).drop 16 = p := by
  have h := List.drop_left (be32 1 ++ (t ++ be64 (16 + p.length))) p
  rw [show (be32 1 ++ (t ++ be64 (16 + p.length))).length = 16 from by
    simp [ht, be32_length, be64_length]] at h
  rw [show enc64 t p = (be32 1 ++ (t ++ be64 (16 + p.length))) ++ p from by
    simp [enc64, List.append_assoc]]
  exact h

theorem enc32_payload (t p : Bytes) (ht : t.length = 4) :
    pyRead (enc32 t p) 8 (((8 + p.length : Nat) : Int) - 8) = p := by
  have hn : (((8 + p.length : Nat) : Int) - 8).toNat = p.length := by omega
  unfold pyRead
  rw [if_neg (by omega), hn, enc32_drop8 t p ht, List.take_length]

theorem enc64_payload (t p : Bytes) (ht : t.length = 4) :
    pyRead (enc64 t p) 16 (((8 + p.length : Nat) : Int) - 8) = p := by
  have hn : (((8 + p.length : Nat) : Int) - 8).toNat = p.length := by omega
  unfold pyRead
  rw [if_neg (by omega), hn, enc64_drop16 t p ht, List.take_length]

/-- Claim C4: for every 4-byte tag and payload, a box encoded with a direct
32-bit size field and the equivalent hand-constructed box with size field 1
followed by a 64-bit extended size decode to the identical sequence of
`(tag, payload)` pairs — for a leaf the one pair, for a container the
identical sequence of descendant pairs (size-encoding equivalence). -/
theorem c4_size_encoding (t p : Bytes) (fuel : Nat) (ht : t.length = 4)
    (hp : 8 + p.length < 4294967296) :
    (parseF fuel (enc32 t p) 0 ((enc32 t p).length : Int)).pairs =
      (parseF fuel (enc64 t p) 0 ((enc64 t p).length : Int)).pairs := by
  cases fuel with
  | zero =>
    unfold parseF
    simp only [parseGo]
    split_ifs <;> rfl
  | succ fuel =>
    have hL32 : ((enc32 t p).length : Int) = ((8 + p.length : Nat) : Int) := by
      rw [enc32_length t p ht]
    have hL64 : ((enc64 t p).length : Int) = ((16 + p.length : Nat) : Int) := by
      rw [enc64_length t p ht]
    have he32 : (0 : Int) < ((enc32 t p).length : Int) := by rw [hL32]; push_cast; omega
    have he64 : (0 : Int) < ((enc64 t p).length : Int) := by rw [hL64]; push_cast; omega
    have hsz : ((16 + p.length : Nat) : Int) - 8 = ((8 + p.length : Nat) : Int) := by
      push_cast; ring
    have e8 : (8 : Int) + ((8 + p.length : Nat) : Int) = ((16 + p.length : Nat) : Int) := by
      push_cast; ring
    unfold parseF
    simp only [parseGo, if_pos he32, if_pos he64, if_neg (show ¬ (0 : Int) < 0 by omega),
      readHeader_enc32 t p ht hp, readHeader_enc64 t p ht hp, hsz, zero_add]
    by_cases hc : t ∈ containersL
    · simp only [if_pos hc]
      set k : Int := if t = ascii "meta" then (12 : Int) else 8 with hkdef
      have hk : 0 ≤ k - 8 := by rw [hkdef]; split <;> norm_num
      obtain ⟨hip, his, hie⟩ := c4_inner t p fuel ht k hk
      rw [← e8] at hip his hie
      rw [← hie]
      cases hx : (parseGo (enc32 t p) fuel k ((8 + p.length : Nat) : Int) k none).exit with
      | crash => simp only [hx]; exact hip
      | outOfFuel => simp only [hx]; exact hip
      | ok =>
        simp only [hx]
        rw [parseGo_stop (enc32 t p) fuel 0 _ _ _ (by rw [hL32]; omega),
          parseGo_stop (enc64 t p) fuel 0 _ _ _ (by rw [hL64]; push_cast; omega)]
        simp only [List.append_nil]
        exact hip
    · simp only [if_neg hc]
      by_cases hig : t ∈ ignoreL
      · simp only [if_pos hig]
        rw [parseGo_stop (enc32 t p) fuel 0 _ _ _ (by rw [hL32]; omega),
          parseGo_stop (enc64 t p) fuel 0 _ _ _ (by rw [hL64]; push_cast; omega)]
      · simp only [if_neg hig]
        rw [enc32_payload t p ht, enc64_payload t p ht,
          parseGo_stop (enc32 t p) fuel 0 _ _ _ (by rw [hL32]; omega),
          parseGo_stop (enc64 t p) fuel 0 _ _ _ (by rw [hL64]; push_cast; omega)]

/-! ## Claims about the walker -/

/-- Claim C1: when the walker meets a box whose tag is in the container set,
it recurses into the sub-range `[cursor+skip, cursor+size)` with skip 12 for
`meta` and 8 for every other container tag, yields every pair of the
recursive call in order before continuing at `cursor+size` — hence leaf
boxes are emitted depth-first, in file order.  (`o2`/`sz` are the walker's
`offset`/`size` variables after the header read, as produced by
`readHeader`; the hypothesis `hok` states the recursive call returned
normally.) -/
theorem c1_container_recursion (file : Bytes) (b e off o2 sz : Int) (dcl : Nat) (tag : Bytes)
    (pos : Nat) (last : Option (Bytes × Int)) (fuel : Nat)
    (hlt : off < e) (h0 : 0 ≤ off)
    (hh : readHeader file off = HRes.hok o2 sz dcl tag pos)
    (hc : tag ∈ containersL)
    (hok : (parseGo file fuel (o2 + (if tag = ascii "meta" then (12 : Int) else 8)) (o2 + sz)
        (o2 + (if tag = ascii "meta" then (12 : Int) else 8)) none).exit = PExit.ok) :
    (parseGo file (fuel + 1) b e off last).pairs =
      (parseGo file fuel (o2 + (if tag = ascii "meta" then (12 : Int) else 8)) (o2 + sz)
        (o2 + (if tag = ascii "meta" then (12 : Int) else 8)) none).pairs ++
      (parseGo file fuel b e (o2 + sz) (some (tag, sz))).pairs := by
  simp only [parseGo, if_pos hlt, if_neg (show ¬ off < 0 by omega), hh, if_pos hc, hok]

/-- A `meta` container (12-byte header skip) wrapping one leaf box. -/
def c1File : Bytes :=
  be32 24 ++ (ascii "meta" ++ ([0, 0, 0, 0] ++ (be32 12 ++ (ascii "xxxx" ++ [9, 9, 9, 9]))))

/-- Two sibling leaves inside a `moov` container followed by a top-level
leaf, exercising depth-first file order. -/
def c1FileB : Bytes :=
  be32 28 ++ (ascii "moov" ++
    (be32 10 ++ (ascii "aaaa" ++ ([1, 1] ++
      (be32 10 ++ (ascii "bbbb" ++ ([2, 2] ++
        (be32 10 ++ (ascii "cccc" ++ [3, 3])))))))))

theorem c1_witness :
    (parseGo c1File 2 0 24 0 none).pairs =
      (parseGo c1File 1 12 24 12 none).pairs ++
        (parseGo c1File 1 0 24 24 (some (ascii "meta", (24 : Int)))).pairs ∧
    (parseGo c1File 2 0 24 0 none).pairs = [(ascii "xxxx", [9, 9, 9, 9])] ∧
    (parseF 3 c1FileB 0 38).pairs =
      [(ascii "aaaa", [1, 1]), (ascii "bbbb", [2, 2]), (ascii "cccc", [3, 3])] :=
  ⟨c1_container_recursion c1File 0 24 0 0 24 24 (ascii "meta") 8 none 1
      (by decide) (by decide) (by decide) (by decide) (by decide),
   by decide, by decide⟩

/-- Claim C2 (amended): when the walker cannot read a complete 4-byte size
field it aborts the traversal of the current range, printing a diagnostic
whose tag and size fields are the stale values of the previous box when one
exists (first conjunct), and otherwise — on the first box of a range — the
diagnostic print itself raises, so a raw exception escapes the generator
(second conjunct); a declared size that would read past the end of the
source is *not* detected: the payload is silently truncated at end of file
and traversal continues at `cursor+size` with no diagnostic (third
conjunct). -/
theorem c2_malformed_handling :
    (∀ (file : Bytes) (b e off : Int) (t : Bytes) (s : Int) (fuel : Nat),
        off < e → 0 ≤ off → readHeader file off = HRes.szShort →
        parseGo file (fuel + 1) b e off (some (t, s)) =
          ⟨[], [⟨file.length, b, e, t, off, s⟩], [], PExit.ok⟩) ∧
    (∀ (file : Bytes) (b e off : Int) (fuel : Nat),
        off < e → 0 ≤ off → readHeader file off = HRes.szShort →
        parseGo file (fuel + 1) b e off none = ⟨[], [], [], PExit.crash⟩) ∧
    (∀ (file : Bytes) (b e off o2 sz : Int) (dcl : Nat) (tag : Bytes) (pos : Nat)
        (last : Option (Bytes × Int)) (fuel : Nat),
        off < e → 0 ≤ off →
        readHeader file off = HRes.hok o2 sz dcl tag pos →
        tag ∉ containersL → tag ∉ ignoreL →
        (file.length : Int) < off + (dcl : Int) → 8 < sz →
        parseGo file (fuel + 1) b e off last =
          ⟨(tag, pyRead file pos (sz - 8)) ::
              (parseGo file fuel b e (o2 + sz) (some (tag, sz))).pairs,
            (parseGo file fuel b e (o2 + sz) (some (tag, sz))).diags,
            dcl :: (parseGo file fuel b e (o2 + sz) (some (tag, sz))).sizes,
            (parseGo file fuel b e (o2 + sz) (some (tag, sz))).exit⟩ ∧
          ((pyRead file pos (sz - 8)).length : Int) < sz - 8) := by
  refine ⟨?_, ?_, ?_⟩
  · intro file b e off t s fuel hlt h0 hshort
    simp only [parseGo, if_pos hlt, if_neg (show ¬ off < 0 by omega), hshort, pexcept]
  · intro file b e off fuel hlt h0 hshort
    simp only [parseGo, if_pos hlt, if_neg (show ¬ off < 0 by omega), hshort, pexcept]
  · intro file b e off o2 sz dcl tag pos last fuel hlt h0 hh hc hig hpast h8
    obtain ⟨ho2, hsum, hpos, hhdr⟩ := readHeader_ok_facts (by omega) hh
    constructor
    · simp only [parseGo, if_pos hlt, if_neg (show ¬ off < 0 by omega), hh,
        if_neg hc, if_neg hig]
    · have hlen : (pyRead file pos (sz - 8)).length = min (sz - 8).toNat (file.length - pos) := by
        unfold pyRead
        rw [if_neg (by omega)]
        rw [List.length_take, List.length_drop]
      rw [hlen]
      omega

/-- A 12-byte source whose single box declares size 20, reading past the end
of the file: the walker yields the truncated payload and finishes with no
diagnostic, contrary to the claimed abort. -/
def c2File : Bytes := be32 20 ++ (ascii "abcd" ++ [1, 2, 3, 4])

theorem c2_counterexample :
    (parseF 2 c2File 0 12).exit = PExit.ok ∧
    (parseF 2 c2File 0 12).diags = [] ∧
    (parseF 2 c2File 0 12).pairs = [(ascii "abcd", [1, 2, 3, 4])] := by
  decide

theorem c2_witness :
    parseGo ([0, 0, 0] : Bytes) 1 0 4 0 (some (ascii "prev", 16)) =
      ⟨[], [⟨3, 0, 4, ascii "prev", 0, 16⟩], [], PExit.ok⟩ ∧
    parseGo ([0, 0, 0] : Bytes) 1 0 4 0 none = ⟨[], [], [], PExit.crash⟩ ∧
    ((pyRead c2File 8 ((20 : Int) - 8)).length : Int) < (20 : Int) - 8 :=
  ⟨c2_malformed_handling.1 [0, 0, 0] 0 4 0 (ascii "prev") 16 0
      (by decide) (by decide) (by decide),
   c2_malformed_handling.2.1 [0, 0, 0] 0 4 0 0 (by decide) (by decide) (by decide),
   (c2_malformed_handling.2.2 c2File 0 12 0 0 20 20 (ascii "abcd") 8 none 1
      (by decide) (by decide) (by decide) (by decide) (by decide) (by decide) (by decide)).2⟩

/-- Claim C9: the traversal of `[begin, end)` terminates whenever no visited
box header declares size 0 (first conjunct: with fuel `psi` the model never
runs out, where one fuel unit is one loop iteration of the source); and a
box declaring size 0 leaves the cursor unchanged, so the walker revisits the
same header forever, re-yielding the same pair once per iteration, with no
diagnostic, for every amount of fuel (second conjunct, on the concrete
8-byte `loopFile`). -/
theorem c9_termination :
    (∀ (file : Bytes) (b e off : Int) (last : Option (Bytes × Int)) (fuel : Nat),
        psi file e off < fuel →
        0 ∉ (parseGo file fuel b e off last).sizes →
        (parseGo file fuel b e off last).exit ≠ PExit.outOfFuel) ∧
    (∀ fuel : Nat,
        parseF fuel loopFile 0 8 =
          ⟨List.replicate fuel (ascii "abcd", []), [], List.replicate fuel 0,
            PExit.outOfFuel⟩) :=
  ⟨fun file b e off last fuel h1 h2 => parse_sufficient fuel file b e off last h1 h2,
   fun fuel => loopFile_diverges fuel none⟩

/-- A well-formed 8-byte source: one ignored box of declared size 8. -/
def c9File : Bytes := be32 8 ++ ascii "free"

theorem c9_witness :
    (parseGo c9File 81 0 8 0 none).exit ≠ PExit.outOfFuel ∧
    parseF 2 loopFile 0 8 =
      ⟨List.replicate 2 (ascii "abcd", []), [], List.replicate 2 0, PExit.outOfFuel⟩ :=
  ⟨c9_termination.1 c9File 0 8 0 none 81 (by decide) (by decide),
   c9_termination.2 2⟩

def c4Tag : Bytes := ascii "moov"

def c4Payload : Bytes := be32 12 ++ (ascii "xxxx" ++ [7, 7, 7, 7])

theorem c4_witness :
    (parseF 3 (enc32 c4Tag c4Payload) 0 ((enc32 c4Tag c4Payload).length : Int)).pairs =
      (parseF 3 (enc64 c4Tag c4Payload) 0 ((enc64 c4Tag c4Payload).length : Int)).pairs ∧
    (parseF 3 (enc32 c4Tag c4Payload) 0 ((enc32 c4Tag c4Payload).length : Int)).pairs =
      [(ascii "xxxx", [7, 7, 7, 7])] :=
  ⟨c4_size_encoding c4Tag c4Payload 3 (by decide) (by decide), by decide⟩

/-! ## Claims about the normalizer -/

/-- Claim C3: folding a contribution under an already-present key merges
into a list — an existing list gets the new value appended (first
conjunct), a scalar first value is promoted to a two-element list holding
it and the new value (second conjunct) — and in particular two `©ART`
leaves with post-sub-header texts "Alice" and "Bob, Carol" fold to exactly
`{"Cast": ["Alice", ["Bob", "Carol"]]}` (third conjunct). -/
theorem c3_merge :
    (∀ (r : Record) (k : RKey) (v : Val) (xs : List Val),
        recGet r k = some (Val.vlist xs) →
        fold1 r k v = recSet r k (Val.vlist (xs ++ [v]))) ∧
    (∀ (r : Record) (k : RKey) (v w : Val),
        recGet r k = some w → (∀ xs, w ≠ Val.vlist xs) →
        fold1 r k v = recSet r k (Val.vlist [w, v])) ∧
    ((save noXml 1 [] (169 :: ascii "ART") (List.replicate 16 0 ++ ascii "Alice")).bind
        (fun r => save noXml 1 r (169 :: ascii "ART")
          (List.replicate 16 0 ++ ascii "Bob, Carol")) =
      Except.ok [(RKey.ks "Cast",
        Val.vlist [Val.vstr "Alice", Val.vlist [Val.vstr "Bob", Val.vstr "Carol"]])]) := by
  refine ⟨?_, ?_, ?_⟩
  · intro r k v xs h
    simp only [fold1, h]
  · intro r k v w h hw
    simp only [fold1, h]
  · rfl

theorem c3_witness :
    fold1 [(RKey.ks "K", Val.vlist [Val.vint 1])] (RKey.ks "K") (Val.vint 2) =
      [(RKey.ks "K", Val.vlist [Val.vint 1, Val.vint 2])] ∧
    fold1 [(RKey.ks "K", Val.vint 1)] (RKey.ks "K") (Val.vint 2) =
      [(RKey.ks "K", Val.vlist [Val.vint 1, Val.vint 2])] :=
  ⟨(c3_merge.1 [(RKey.ks "K", Val.vlist [Val.vint 1])] (RKey.ks "K") (Val.vint 2)
      [Val.vint 1] rfl).trans rfl,
   (c3_merge.2.1 [(RKey.ks "K", Val.vint 1)] (RKey.ks "K") (Val.vint 2) (Val.vint 1) rfl
      (fun xs hx => Val.noConfusion hx)).trans rfl⟩

/-- Claim C5 (amended): when a freeform (`----`) payload parses into
sub-records but the `name` sub-type is absent (first conjunct), or `name` is
present but `data` is absent (second conjunct), `_save` raises the key-lookup
error, which propagates out of the normalizer: the leaf is not skipped and
the record construction for the whole file aborts. -/
theorem c5_freeform (v : Bytes) (fuel : Nat) (xml : String → Except PyErr XNode)
    (r : Record) (recs : List (Bytes × Bytes)) :
    (subRecords v fuel 0 [] = Except.ok recs → lookupB recs (ascii "name") = none →
      save xml fuel r (ascii "----") v = Except.error PyErr.keyError) ∧
    (∀ t : Bytes, subRecords v fuel 0 [] = Except.ok recs →
      lookupB recs (ascii "name") = some t → lookupB recs (ascii "data") = none →
      save xml fuel r (ascii "----") v = Except.error PyErr.keyError) := by
  constructor
  · intro hsub hname
    simp only [save, retag, eq_self_iff_true, if_true, hsub, hname]
  · intro t hsub hname hdata
    simp only [save, retag, eq_self_iff_true, if_true, hsub, hname, hdata]

/-- One complete sub-record of sub-type `mean`; neither `name` nor `data`
is present. -/
def c5Payload : Bytes := be32 13 ++ (ascii "mean" ++ ([0, 0, 0, 0] ++ [65]))

/-- One complete sub-record of sub-type `name`; `data` is absent. -/
def c5PayloadB : Bytes := be32 13 ++ (ascii "name" ++ ([0, 0, 0, 0] ++ [65]))

theorem c5_counterexample :
    save noXml 4 [] (ascii "----") c5Payload = Except.error PyErr.keyError ∧
    (Except.error PyErr.keyError : Except PyErr Record) ≠ Except.ok [] :=
  ⟨rfl, fun h => Except.noConfusion h⟩

theorem c5_witness :
    save noXml 4 [] (ascii "----") c5Payload = Except.error PyErr.keyError ∧
    save noXml 4 [] (ascii "----") c5PayloadB = Except.error PyErr.keyError :=
  ⟨(c5_freeform c5Payload 4 noXml [] [(ascii "mean", [65])]).1 rfl rfl,
   (c5_freeform c5PayloadB 4 noXml [] [(ascii "name", [65])]).2 [65] rfl rfl rfl⟩

/-- Claim C6: for an 84-byte `tkhd` payload (the exact size `unpack`
demands), when the alternate-group field (bytes 34-36) is nonzero, or the
width field (bytes 76-80) or height field (bytes 80-84) is zero, the leaf
contributes nothing — the record is unchanged, with no `Width`/`Height` keys
even for non-zero dimension fields — because the decoded value is the forced
`False` and falsy values are never folded in; otherwise it contributes
`Width` and `Height` as the whole parts of the 16.16 fixed-point fields. -/
theorem c6_tkhd (v : Bytes) (r : Record) (xml : String → Except PyErr XNode) (fuel : Nat)
    (hlen : v.length = 84) :
    ((beVal (sliceN v 34 36) ≠ 0 ∨ beVal (sliceN v 76 80) = 0 ∨ beVal (sliceN v 80 84) = 0) →
      save xml fuel r (ascii "tkhd") v = Except.ok r) ∧
    (beVal (sliceN v 34 36) = 0 → beVal (sliceN v 76 80) ≠ 0 → beVal (sliceN v 80 84) ≠ 0 →
      save xml fuel r (ascii "tkhd") v =
        Except.ok (fold1
          (fold1 r (RKey.ks "Width") (Val.vint ((beVal (sliceN v 76 80) / 65536 : Nat) : Int)))
          (RKey.ks "Height") (Val.vint ((beVal (sliceN v 80 84) / 65536 : Nat) : Int)))) := by
  have h1 : save xml fuel r (ascii "tkhd") v =
      match decodeVal xml (ascii "tkhd") (RKey.ks "Track header") v with
      | Except.error err => Except.error err
      | Except.ok value => Except.ok (saveFold r (RKey.ks "Track header") value) := rfl
  have h2 : decodeVal xml (ascii "tkhd") (RKey.ks "Track header") v =
      (if v.length = 84 then
        (if beVal (sliceN v 34 36) = 0 ∧ beVal (sliceN v 76 80) ≠ 0 ∧
            beVal (sliceN v 80 84) ≠ 0 then
          Except.ok (Val.vdict
            [("Width", Val.vint ((beVal (sliceN v 76 80) / 65536 : Nat) : Int)),
             ("Height", Val.vint ((beVal (sliceN v 80 84) / 65536 : Nat) : Int))])
        else Except.ok (Val.vbool false))
      else Except.error PyErr.structError) := rfl
  constructor
  · intro hcond
    rw [h1, h2, if_pos hlen, if_neg (by tauto)]
    rfl
  · intro ha hw hh
    rw [h1, h2, if_pos hlen, if_pos ⟨ha, hw, hh⟩]
    rfl

/-- `tkhd` payload with alternate group 1, width 1.0, height 2.0. -/
def c6Bad : Bytes :=
  List.replicate 34 0 ++ ([0, 1] ++ (List.replicate 40 0 ++ ([0, 1, 0, 0] ++ [0, 2, 0, 0])))

/-- `tkhd` payload with alternate group 0, width 1.0, height 2.0. -/
def c6Good : Bytes :=
  List.replicate 34 0 ++ ([0, 0] ++ (List.replicate 40 0 ++ ([0, 1, 0, 0] ++ [0, 2, 0, 0])))

theorem c6_witness :
    save noXml 1 [] (ascii "tkhd") c6Bad = Except.ok [] ∧
    save noXml 1 [] (ascii "tkhd") c6Good =
      Except.ok [(RKey.ks "Width", Val.vint 1), (RKey.ks "Height", Val.vint 2)] :=
  ⟨(c6_tkhd c6Bad [] noXml 1 (by decide)).1 (by decide),
   ((c6_tkhd c6Good [] noXml 1 (by decide)).2 (by decide) (by decide) (by decide)).trans rfl⟩

theorem stikName_notEmpty (n : Nat) : (stikName n).data.isEmpty = false := by
  unfold stikName
  split_ifs <;> rfl

/-- Claim C7: a `stik` payload decodes the bytes from the fixed offset 17 as
a little-endian unsigned integer through the enumeration 0/9 → Movie,
1 → Music, 2 → Audiobook, 6 → Music video, 10 → TV show, 11 → Booklet,
14 → Ringtone, 21 → Podcast, 23 → iTunes U, and any other value N yields
the placeholder string "Unknown #N" rather than an error; the decoded
string is recorded under the `Media type` key. -/
theorem c7_stik (v : Bytes) (xml : String → Except PyErr XNode) (fuel : Nat) :
    (save xml fuel [] (ascii "stik") v =
      Except.ok [(RKey.ks "Media type", Val.vstr (stikName (leVal (v.drop 17))))]) ∧
    stikName 10 = "TV show" ∧ stikName 99 = "Unknown #99" ∧
    (∀ n : Nat, n = 0 ∨ n = 9 → stikName n = "Movie") ∧
    stikName 1 = "Music" ∧ stikName 2 = "Audiobook" ∧ stikName 6 = "Music video" ∧
    stikName 11 = "Booklet" ∧ stikName 14 = "Ringtone" ∧ stikName 21 = "Podcast" ∧
    stikName 23 = "iTunes U" ∧
    (∀ n : Nat, n ∉ ([0, 1, 2, 6, 9, 10, 11, 14, 21, 23] : List Nat) →
      stikName n = "Unknown #" ++ toString n) := by
  refine ⟨?_, rfl, rfl, ?_, rfl, rfl, rfl, rfl, rfl, rfl, rfl, ?_⟩
  · have h1 : save xml fuel [] (ascii "stik") v =
        match decodeVal xml (ascii "stik") (RKey.ks "Media type") v with
        | Except.error err => Except.error err
        | Except.ok value => Except.ok (saveFold [] (RKey.ks "Media type") value) := rfl
    have h2 : decodeVal xml (ascii "stik") (RKey.ks "Media type") v =
        Except.ok (Val.vstr (stikName (leVal (v.drop 17)))) := rfl
    rw [h1, h2]
    show Except.ok (saveFold [] (RKey.ks "Media type")
      (Val.vstr (stikName (leVal (v.drop 17))))) = _
    unfold saveFold
    rw [if_pos (show (Val.vstr (stikName (leVal (v.drop 17)))).truthy = true from by
      simp [Val.truthy, stikName_notEmpty])]
    rfl
  · intro n hn
    rcases hn with hn | hn <;> rw [hn] <;> rfl
  · intro n hn
    simp only [List.mem_cons, List.not_mem_nil, or_false, not_or] at hn
    obtain ⟨e0, e1, e2, e6, e9, e10, e11, e14, e21, e23⟩ := hn
    unfold stikName
    rw [if_neg e0, if_neg e1, if_neg e2, if_neg e6, if_neg e9, if_neg e10, if_neg e11,
      if_neg e14, if_neg e21, if_neg e23]

theorem c7_witness :
    save noXml 1 [] (ascii "stik") (List.replicate 17 0 ++ [10]) =
      Except.ok [(RKey.ks "Media type", Val.vstr "TV show")] ∧
    save noXml 1 [] (ascii "stik") (List.replicate 17 0 ++ [99]) =
      Except.ok [(RKey.ks "Media type", Val.vstr "Unknown #99")] :=
  ⟨(c7_stik (List.replicate 17 0 ++ [10]) noXml 1).1.trans (by rfl),
   (c7_stik (List.replicate 17 0 ++ [99]) noXml 1).1.trans (by rfl)⟩

/-- Claim C8 (amended): a `trkn` payload strips an 8-byte sub-header and
decodes the remaining bytes as a little-endian unsigned integer under the
key `Track number` (the value 0 is skipped as falsy); in particular the
10-byte payload `00 00 00 00 00 00 00 00 00 05` decodes to 1280
(`00 05` little-endian), not 5. -/
theorem c8_trkn (v : Bytes) (xml : String → Except PyErr XNode) (fuel : Nat) :
    (save xml fuel [] (ascii "trkn") v =
      Except.ok (if leVal (v.drop 8) = 0 then ([] : Record)
        else [(RKey.ks "Track number", Val.vint ((leVal (v.drop 8) : Nat) : Int))])) ∧
    leVal (([0, 0, 0, 0, 0, 0, 0, 0, 0, 5] : Bytes).drop 8) = 1280 := by
  constructor
  · have h1 : save xml fuel [] (ascii "trkn") v =
        Except.ok (saveFold [] (RKey.ks "Track number")
          (Val.vint ((leVal (v.drop 8) : Nat) : Int))) := rfl
    rw [h1]
    by_cases h : leVal (v.drop 8) = 0
    · rw [if_pos h]
      unfold saveFold
      rw [if_neg (by simp [Val.truthy, h])]
    · rw [if_neg h]
      unfold saveFold
      rw [if_pos (by simp [Val.truthy]; exact_mod_cast h)]
      rfl
  · rfl

theorem c8_counterexample :
    save noXml 1 [] (ascii "trkn") [0, 0, 0, 0, 0, 0, 0, 0, 0, 5] =
      Except.ok [(RKey.ks "Track number", Val.vint 1280)] ∧
    (1280 : Int) ≠ 5 :=
  ⟨rfl, by decide⟩

theorem c8_witness :
    save noXml 1 [] (ascii "trkn") [0, 0, 0, 0, 0, 0, 0, 0, 5, 0] =
      Except.ok [(RKey.ks "Track number", Val.vint 5)] :=
  (c8_trkn [0, 0, 0, 0, 0, 0, 0, 0, 5, 0] noXml 1).1.trans (by rfl)

/-- Claim C10: the `iTunMOVI` walk's pending field name starts out as the
leaf's resolved title — the very `key` variable used for key resolution —
so a `string` (first conjunct) or `array` (second conjunct) node appearing
in the document's top-level `dict` before any `key` node is not ignored:
its value is recorded under "iTunes movie information", as the end-to-end
run of `_save` on such a document shows (third conjunct). -/
theorem c10_pending_key :
    (∀ (s : String) (rest : List XNode) (acc : List (String × Val)),
        itunWalk (XNode.node "string" (some s) [] :: rest) "iTunes movie information" acc =
          itunWalk rest "" (alUpdateS acc "iTunes movie information" (Val.vstr s))) ∧
    (∀ (s : String) (rest : List XNode) (acc : List (String × Val)),
        itunWalk (XNode.node "array" none
            [XNode.node "dict" none [XNode.node "string" (some s) []]] :: rest)
          "iTunes movie information" acc =
          itunWalk rest ""
            (alUpdateS acc "iTunes movie information" (Val.vlist [Val.vstr s]))) ∧
    (save (fun _ => Except.ok (XNode.node "plist" none [XNode.node "dict" none
          [XNode.node "string" (some "X") []]])) 1 [] (ascii "iTunMOVI") [0, 0, 0, 0, 120] =
      Except.ok [(RKey.ks "iTunes movie information", Val.vstr "X")]) :=
  ⟨fun s rest acc => rfl, fun s rest acc => rfl, rfl⟩
